import Mathlib

/-
Verification of the antifake-email matcher (src/unnamed/part_001) against its
specification.

Modelling conventions, fixed here once:

* A JavaScript string is a sequence of UTF-16 code units, modelled as
  `List Nat` of code-point values (all inputs at issue are in the Basic
  Multilingual Plane, where the two coincide).  `codepoints` converts a Lean
  string literal for concrete inputs.
* JavaScript values of arbitrary type (the functions accept anything) are the
  inductive `JsValue`; `truthy` is JavaScript truthiness.
* A domain configuration `{ domains: { k1: .., k2: .. } }` is consumed by the
  source only through `Object.keys(json.domains)`, whose iteration order for
  string keys is insertion order; it is modelled as the list of keys in that
  order (`DomainConfig`).  The metadata values are never inspected by the
  source and are not modelled.  The source's default-parameter step
  `if (!json) json = static_json_v1` resolves an absent configuration to the
  bundled dataset, which is one particular `DomainConfig`; theorems that
  quantify over every `DomainConfig` therefore cover the absent-config call
  as well.
* `isFakeDomain` returns a matched key or the literal `false`; this sum is
  `MatchResult` (`found k` / `noMatch`).
* Case folding: the source calls `String.prototype.toLowerCase`; the inputs
  and keys at issue are ASCII, and `jsToLower` is the case mapping on the
  ASCII range (identity elsewhere).  `jsToUpper` likewise models the
  specification's `upper(k)`.
* The subdomain test of the source is
  `normalizedDomain.search(new RegExp(".+\\." + dom.replace(/\./g, "\\.") + "$")) === 0`.
  For a key `dom` containing no regular-expression metacharacter other than
  the dots the escaping handles (no character of `\ ^ $ * + ? ( ) [ ] { } |`,
  see `regexSafeKey`), the compiled pattern matches, starting at index 0 and
  anchored by `$` at the end, exactly the strings `A ++ "." ++ dom` where `A`
  is non-empty and free of the four line terminators that `.` refuses
  (U+000A, U+000D, U+2028, U+2029).  `subdomainMatchAt0` is that condition;
  theorems that rely on it carry the `regexSafeKey` hypothesis, which every
  domain-shaped key of the specification's data model satisfies.
-/

/-- Code-point list of a Lean string literal, used for concrete inputs. -/
def codepoints (x : String) : List Nat := x.data.map Char.toNat

/-- JavaScript values of the types the test-suite feeds the three functions:
null, undefined, numbers, booleans, strings, plain objects and arrays. -/
inductive JsValue where
  | vnull
  | vundefined
  | num (n : Int)
  | boolean (b : Bool)
  | str (s : List Nat)
  | object
  | array
deriving DecidableEq

/-- JavaScript truthiness of a `JsValue`: null, undefined, 0, false and the
empty string are falsy, objects and arrays are truthy. -/
def truthy : JsValue → Bool
  | .vnull => false
  | .vundefined => false
  | .num n => decide (n ≠ 0)
  | .boolean b => b
  | .str s => decide (s ≠ [])
  | .object => true
  | .array => true

/-- The configuration `{ domains: {..} }`, reduced to what the source reads:
the list `Object.keys(json.domains)` in its (insertion) iteration order. -/
structure DomainConfig where
  domains : List (List Nat)
deriving DecidableEq

/-- Result of `isFakeDomain` / `isFakeEmail`: the matched key (a string) or
the literal `false`. -/
inductive MatchResult where
  | found (dom : List Nat)
  | noMatch
deriving DecidableEq

/-- ASCII case folding of `String.prototype.toLowerCase` on one code unit
(identity outside A-Z). -/
def jsToLower (n : Nat) : Nat := if 65 ≤ n ∧ n ≤ 90 then n + 32 else n

/-- ASCII case folding of `String.prototype.toUpperCase` on one code unit
(identity outside a-z); models the specification's `upper(k)`. -/
def jsToUpper (n : Nat) : Nat := if 97 ≤ n ∧ n ≤ 122 then n - 32 else n

/-- The code points `String.prototype.trim` removes: the ECMAScript WhiteSpace
set (TAB, VT, FF, SP, NBSP, U+1680, U+2000..U+200A, U+202F, U+205F, U+3000,
U+FEFF) together with the LineTerminator set (LF, CR, U+2028, U+2029). -/
def isJsWhitespace (n : Nat) : Bool :=
  decide (n = 9 ∨ n = 10 ∨ n = 11 ∨ n = 12 ∨ n = 13 ∨ n = 32 ∨ n = 160 ∨
    n = 5760 ∨ (8192 ≤ n ∧ n ≤ 8202) ∨ n = 8232 ∨ n = 8233 ∨ n = 8239 ∨
    n = 8287 ∨ n = 12288 ∨ n = 65279)

/-- The four ECMAScript line terminators, which the regular-expression `.`
(no `s` flag in the source) does not match: LF, CR, U+2028, U+2029. -/
def isLineTerminator (n : Nat) : Bool :=
  decide (n = 10 ∨ n = 13 ∨ n = 8232 ∨ n = 8233)

/-- `String.prototype.trim`: drop `isJsWhitespace` code points from both
ends. -/
def jsTrim (s : List Nat) : List Nat :=
  ((s.dropWhile isJsWhitespace).reverse.dropWhile isJsWhitespace).reverse

/-- The source's normalization `domain.toLowerCase().trim()`. -/
def normalizeDomain (s : List Nat) : List Nat := jsTrim (s.map jsToLower)

/-- Code units that are special in a JavaScript regular expression and that
the source's escaping (`dom.replace(/\./g, "\\.")`, dots only) leaves
unescaped: the characters `\ ^ $ * + ? ( ) [ ] { } |`. -/
def regexSpecialUnescaped (n : Nat) : Bool :=
  decide (n = 92 ∨ n = 94 ∨ n = 36 ∨ n = 42 ∨ n = 43 ∨ n = 63 ∨ n = 40 ∨
    n = 41 ∨ n = 91 ∨ n = 93 ∨ n = 123 ∨ n = 125 ∨ n = 124)

/-- A key for which the pattern the source builds is the literal suffix test:
no unescaped regular-expression metacharacter.  Every domain-shaped key of
the specification's data model (lowercase letters, digits, hyphens, dots)
satisfies this. -/
def regexSafeKey (dom : List Nat) : Bool :=
  dom.all (fun c => !(regexSpecialUnescaped c))

/-- The source's subdomain test
`normalizedDomain.search(new RegExp(".+\\." + esc(dom) + "$")) === 0` for a
`regexSafeKey` key: a match of `.+\.dom$` starting at index 0 is anchored at
the end by `$`, so it spans the whole string and decomposes it uniquely as a
non-empty prefix matched by `.+` (no line terminators), a literal dot (code
46) and the literal key. -/
def subdomainMatchAt0 (normalizedDomain dom : List Nat) : Bool :=
  decide (dom.length + 2 ≤ normalizedDomain.length) &&
  decide (normalizedDomain.drop (normalizedDomain.length - (dom.length + 1)) =
    46 :: dom) &&
  (normalizedDomain.take (normalizedDomain.length - (dom.length + 1))).all
    (fun c => !(isLineTerminator c))

/-- The `for (let dom of Object.keys(json.domains))` loop of `isFakeDomain`:
first the exact comparison `dom === normalizedDomain`, then the subdomain
test; the first key that passes either is returned, else `false`. -/
def findFakeDomain (normalizedDomain : List Nat) :
    List (List Nat) → MatchResult
  | [] => .noMatch
  | dom :: rest =>
    if dom = normalizedDomain then .found dom
    else if subdomainMatchAt0 normalizedDomain dom = true then .found dom
    else findFakeDomain normalizedDomain rest

/-- `isFakeDomain(domain, json)`: the guard
`if (!domain || typeof domain !== 'string') return false` rejects every
non-string and the empty string; otherwise the normalized input is run
through the key loop. -/
def isFakeDomain (domain : JsValue) (json : DomainConfig) : MatchResult :=
  match domain with
  | .str s =>
      if s = [] then .noMatch
      else findFakeDomain (normalizeDomain s) json.domains
  | _ => .noMatch

/-- Index of the first `"@"` (code 64) in a string, `String.prototype.search(/@/)`
before its `-1` encoding. -/
def indexOfAt : List Nat → Option Nat
  | [] => none
  | c :: rest => if c = 64 then some 0 else (indexOfAt rest).map (fun i => i + 1)

/-- `email.search(/@/)`: the index of the first `"@"`, or `-1`. -/
def searchAt (s : List Nat) : Int :=
  match indexOfAt s with
  | some i => (i : Int)
  | none => -1

/-- `email.split(/@/)`: the segments between every `"@"` occurrence (the
separator at code 64), always at least one segment. -/
def splitOnAt : List Nat → List (List Nat)
  | [] => [[]]
  | c :: rest =>
    if c = 64 then [] :: splitOnAt rest
    else
      match splitOnAt rest with
      | seg :: segs => (c :: seg) :: segs
      | [] => [[c]]

/-- `hostnameFromEmailAddress(email)`: on a truthy string whose first `"@"`
is at an index greater than 0, `email.split(/@/)[1]` — the segment strictly
between the first and the second `"@"` (up to the end when there is only
one); otherwise JavaScript `null`.  An out-of-range `[1]` would be
`undefined`, but the guard `search(/@/) > 0` makes the split have at least
two segments. -/
def hostnameFromEmailAddress : JsValue → JsValue
  | .str s =>
      if s ≠ [] ∧ 0 < searchAt s then
        match (splitOnAt s)[1]? with
        | some seg => .str seg
        | none => .vundefined
      else .vnull
  | _ => .vnull

/-- `isFakeEmail(email, json) = isFakeDomain(hostnameFromEmailAddress(email), json)`. -/
def isFakeEmail (email : JsValue) (json : DomainConfig) : MatchResult :=
  isFakeDomain (hostnameFromEmailAddress email) json

/-- `isPlusAddressingEmail(email)`: on a truthy string whose first `"@"` is at
an index greater than 0, whether `email.split(/@/)[0]` (the part before the
first `"@"`, always present) contains `"+"` (code 43); otherwise `false`. -/
def isPlusAddressingEmail : JsValue → Bool
  | .str s =>
      if s ≠ [] ∧ 0 < searchAt s then
        (((splitOnAt s)[0]?).getD []).contains 43
      else false
  | _ => false

/-- The mock configuration of the repository's test suite (part_000). -/
def mockDomains : DomainConfig :=
  ⟨[codepoints "tempmail.com", codepoints "fakeemail.net",
    codepoints "throwaway.email", codepoints "guerrillamail.com"]⟩

/-- Regression check against the test suite: exact, case-insensitive and
whitespace-trimmed matches of `isFakeDomain`. -/
theorem sanity_isFakeDomain_exact :
    isFakeDomain (.str (codepoints "tempmail.com")) mockDomains =
      .found (codepoints "tempmail.com") ∧
    isFakeDomain (.str (codepoints "TeMpMaIl.CoM")) mockDomains =
      .found (codepoints "tempmail.com") ∧
    isFakeDomain (.str (codepoints "  TEMPMAIL.COM  ")) mockDomains =
      .found (codepoints "tempmail.com") ∧
    isFakeDomain (.str (codepoints "guerrillamail.com")) mockDomains =
      .found (codepoints "guerrillamail.com") := by decide

/-- Regression check against the test suite: subdomain matches and
non-matches of `isFakeDomain`. -/
theorem sanity_isFakeDomain_subdomain :
    isFakeDomain (.str (codepoints "deep.sub.tempmail.com")) mockDomains =
      .found (codepoints "tempmail.com") ∧
    isFakeDomain (.str (codepoints "  user.tempmail.com  ")) mockDomains =
      .found (codepoints "tempmail.com") ∧
    isFakeDomain (.str (codepoints "notatempmail.com")) mockDomains = .noMatch ∧
    isFakeDomain (.str (codepoints "tempmail.com.fake.org")) mockDomains = .noMatch ∧
    isFakeDomain (.str (codepoints "gmail.com")) mockDomains = .noMatch ∧
    isFakeDomain (.str (codepoints "   ")) mockDomains = .noMatch ∧
    isFakeDomain (.str []) mockDomains = .noMatch := by decide

/-- Regression check against the test suite: `isFakeEmail` on valid, invalid
and multiple-`"@"` addresses. -/
theorem sanity_isFakeEmail :
    isFakeEmail (.str (codepoints "user.name+tag@tempmail.com")) mockDomains =
      .found (codepoints "tempmail.com") ∧
    isFakeEmail (.str (codepoints "user@sub.tempmail.com")) mockDomains =
      .found (codepoints "tempmail.com") ∧
    isFakeEmail (.str (codepoints "user @tempmail.com")) mockDomains =
      .found (codepoints "tempmail.com") ∧
    isFakeEmail (.str (codepoints "user@name@tempmail.com")) mockDomains = .noMatch ∧
    isFakeEmail (.str (codepoints "user@gmail.com")) mockDomains = .noMatch ∧
    isFakeEmail (.str (codepoints "notanemail")) mockDomains = .noMatch ∧
    isFakeEmail (.str (codepoints "@tempmail.com")) mockDomains = .noMatch ∧
    isFakeEmail (.str (codepoints "user@")) mockDomains = .noMatch ∧
    isFakeEmail .vnull mockDomains = .noMatch ∧
    isFakeEmail (.num 12345) mockDomains = .noMatch := by decide

/-- Regression check against the test suite: `isPlusAddressingEmail`. -/
theorem sanity_isPlusAddressingEmail :
    isPlusAddressingEmail (.str (codepoints "user+tag@example.com")) = true ∧
    isPlusAddressingEmail (.str (codepoints "user@example.com")) = false ∧
    isPlusAddressingEmail (.str (codepoints "user@example+domain.com")) = false ∧
    isPlusAddressingEmail (.str (codepoints "user+tag@example+domain.com")) = true ∧
    isPlusAddressingEmail (.str (codepoints "user+tag@name@example.com")) = true ∧
    isPlusAddressingEmail (.str (codepoints "user + tag@example.com")) = true ∧
    isPlusAddressingEmail (.str (codepoints "@example.com")) = false ∧
    isPlusAddressingEmail (.str (codepoints "user+tag")) = false ∧
    isPlusAddressingEmail .vnull = false ∧
    isPlusAddressingEmail (.boolean true) = false := by decide

/-- A string without `"@"` has no `/@/` match. -/
theorem indexOfAt_eq_none (s : List Nat) (h : 64 ∉ s) : indexOfAt s = none := by
  induction s with
  | nil => rfl
  | cons c t ih =>
    simp only [List.mem_cons, not_or] at h
    simp [indexOfAt, Ne.symm h.1, ih h.2]

/-- The first `"@"` of `l ++ "@" ++ r` with `"@"` not in `l` is at index
`l.length`. -/
theorem indexOfAt_append (l r : List Nat) (h : 64 ∉ l) :
    indexOfAt (l ++ 64 :: r) = some l.length := by
  induction l with
  | nil => simp [indexOfAt]
  | cons c t ih =>
    simp only [List.mem_cons, not_or] at h
    simp [indexOfAt, Ne.symm h.1, ih h.2]

theorem searchAt_append (l r : List Nat) (h : 64 ∉ l) :
    searchAt (l ++ 64 :: r) = (l.length : Int) := by
  simp [searchAt, indexOfAt_append l r h]

/-- Splitting a string without `"@"` yields that one segment. -/
theorem splitOnAt_no_at (s : List Nat) (h : 64 ∉ s) : splitOnAt s = [s] := by
  induction s with
  | nil => rfl
  | cons c t ih =>
    simp only [List.mem_cons, not_or] at h
    simp [splitOnAt, Ne.symm h.1, ih h.2]

/-- Splitting peels off the segment before the first `"@"`. -/
theorem splitOnAt_append (l r : List Nat) (h : 64 ∉ l) :
    splitOnAt (l ++ 64 :: r) = l :: splitOnAt r := by
  induction l with
  | nil => simp [splitOnAt]
  | cons c t ih =>
    simp only [List.mem_cons, not_or] at h
    simp [splitOnAt, Ne.symm h.1, ih h.2]

/-- Hostname extraction on a single-`"@"` address `lp ++ "@" ++ dom` with a
non-empty `"@"`-free local part: the candidate domain is `dom`. -/
theorem hostname_single_at (lp dom : List Nat) (h0 : lp ≠ []) (h1 : 64 ∉ lp)
    (h2 : 64 ∉ dom) :
    hostnameFromEmailAddress (.str (lp ++ 64 :: dom)) = .str dom := by
  have hs : splitOnAt (lp ++ 64 :: dom) = lp :: [dom] := by
    rw [splitOnAt_append lp dom h1, splitOnAt_no_at dom h2]
  have hlen : 0 < lp.length := List.length_pos.mpr h0
  simp only [hostnameFromEmailAddress]
  rw [if_pos ⟨by simp, by rw [searchAt_append lp dom h1]; exact_mod_cast hlen⟩, hs]
  simp

/-- Hostname extraction on a double-`"@"` address `a ++ "@" ++ b ++ "@" ++ c`
with `a` non-empty and `a`, `b` free of `"@"`: the candidate domain is `b`,
the text strictly between the first and the second `"@"`. -/
theorem hostname_two_ats (a b c : List Nat) (ha0 : a ≠ []) (ha : 64 ∉ a)
    (hb : 64 ∉ b) :
    hostnameFromEmailAddress (.str (a ++ 64 :: (b ++ 64 :: c))) = .str b := by
  have hs : splitOnAt (a ++ 64 :: (b ++ 64 :: c)) = a :: b :: splitOnAt c := by
    rw [splitOnAt_append a _ ha, splitOnAt_append b c hb]
  have hlen : 0 < a.length := List.length_pos.mpr ha0
  simp only [hostnameFromEmailAddress]
  rw [if_pos ⟨by simp, by rw [searchAt_append a _ ha]; exact_mod_cast hlen⟩, hs]
  simp

/-- Characterization of the subdomain test: it holds exactly when the
normalized input splits as a non-empty, line-terminator-free prefix, a
literal dot and the key. -/
theorem subdomainMatchAt0_iff (nd dom : List Nat) :
    subdomainMatchAt0 nd dom = true ↔
      ∃ A, A ≠ [] ∧ (∀ c ∈ A, isLineTerminator c = false) ∧
        nd = A ++ 46 :: dom := by
  unfold subdomainMatchAt0
  simp only [Bool.and_eq_true, decide_eq_true_eq, List.all_eq_true,
    Bool.not_eq_eq_eq_not, Bool.not_true]
  constructor
  · rintro ⟨⟨hlen, hdrop⟩, hall⟩
    refine ⟨nd.take (nd.length - (dom.length + 1)), ?_, hall, ?_⟩
    · have ht : (nd.take (nd.length - (dom.length + 1))).length =
          nd.length - (dom.length + 1) := by
        rw [List.length_take]; omega
      intro hemp
      rw [hemp] at ht
      simp only [List.length_nil] at ht
      omega
    · conv_lhs => rw [← List.take_append_drop (nd.length - (dom.length + 1)) nd]
      rw [hdrop]
  · rintro ⟨A, hA0, hAlt, rfl⟩
    have hAl : 0 < A.length := List.length_pos.mpr hA0
    have hlen : (A ++ 46 :: dom).length = A.length + (dom.length + 1) := by
      simp [List.length_append]
    have harith : (A ++ 46 :: dom).length - (dom.length + 1) = A.length := by
      omega
    refine ⟨⟨by omega, ?_⟩, ?_⟩
    · rw [harith]
      simp
    · rw [harith]
      simpa using hAlt

/-- The key loop returns `found k` when it reaches `k` (exact or subdomain
hit) and no key other than `k` hits first. -/
theorem findFakeDomain_eq_found (nd k : List Nat) (keys : List (List Nat))
    (hmem : k ∈ keys)
    (hskip : ∀ d ∈ keys, d ≠ k → d ≠ nd ∧ subdomainMatchAt0 nd d = false)
    (hhit : k = nd ∨ subdomainMatchAt0 nd k = true) :
    findFakeDomain nd keys = .found k := by
  induction keys with
  | nil => cases hmem
  | cons d rest ih =>
    unfold findFakeDomain
    by_cases hdk : d = k
    · subst hdk
      rcases hhit with h | h
      · rw [if_pos h]
      · by_cases hd : d = nd
        · rw [if_pos hd]
        · rw [if_neg hd, if_pos h]
    · have hsk := hskip d (List.mem_cons_self d rest) hdk
      rw [if_neg hsk.1, if_neg (by simp [hsk.2])]
      have hmem2 : k ∈ rest := by
        rcases List.mem_cons.mp hmem with h | h
        · exact absurd h.symm hdk
        · exact h
      exact ih hmem2 (fun d2 hd2 => hskip d2 (List.mem_cons_of_mem d hd2))

/-- The key loop returns `false` when no key hits. -/
theorem findFakeDomain_eq_noMatch (nd : List Nat) (keys : List (List Nat))
    (h : ∀ d ∈ keys, d ≠ nd ∧ subdomainMatchAt0 nd d = false) :
    findFakeDomain nd keys = .noMatch := by
  induction keys with
  | nil => rfl
  | cons d rest ih =>
    have hd := h d (List.mem_cons_self d rest)
    unfold findFakeDomain
    rw [if_neg hd.1, if_neg (by simp [hd.2])]
    exact ih (fun d2 hd2 => h d2 (List.mem_cons_of_mem d hd2))

/-- The key loop either misses or returns a configured key. -/
theorem findFakeDomain_cases (nd : List Nat) (keys : List (List Nat)) :
    findFakeDomain nd keys = .noMatch ∨
      ∃ d ∈ keys, findFakeDomain nd keys = .found d := by
  induction keys with
  | nil => exact Or.inl rfl
  | cons d rest ih =>
    unfold findFakeDomain
    by_cases h1 : d = nd
    · rw [if_pos h1]
      exact Or.inr ⟨d, List.mem_cons_self d rest, rfl⟩
    · rw [if_neg h1]
      by_cases h2 : subdomainMatchAt0 nd d = true
      · rw [if_pos h2]
        exact Or.inr ⟨d, List.mem_cons_self d rest, rfl⟩
      · rw [if_neg h2]
        rcases ih with h | ⟨d2, hd2, h⟩
        · exact Or.inl h
        · exact Or.inr ⟨d2, List.mem_cons_of_mem d hd2, h⟩

/-- The single-key loop as a single conditional. -/
theorem findFakeDomain_single (nd k : List Nat) :
    findFakeDomain nd [k] =
      (if k = nd ∨ subdomainMatchAt0 nd k = true then .found k
       else .noMatch) := by
  unfold findFakeDomain
  by_cases h1 : k = nd
  · rw [if_pos h1, if_pos (Or.inl h1)]
  · rw [if_neg h1]
    by_cases h2 : subdomainMatchAt0 nd k = true
    · rw [if_pos h2, if_pos (Or.inr h2)]
    · rw [if_neg h2, if_neg (by tauto)]
      rfl

/-- Peeling the dot off a suffix relation between two dot-prefixed keys. -/
theorem cons46_suffix_cases (d k : List Nat) (h : (46 :: d) <:+ (46 :: k)) :
    d = k ∨ (46 :: d) <:+ k := by
  obtain ⟨p, hp⟩ := h
  cases p with
  | nil =>
    injection hp with h1 h2
    exact Or.inl h2
  | cons a t =>
    rw [List.cons_append] at hp
    injection hp with h1 h2
    exact Or.inr ⟨t, h2⟩

/-- Two dot-prefixed suffixes of one string are comparable: the keys are
equal, or one key extends the other across a dot. -/
theorem suffix_trichotomy46 (d k nd : List Nat)
    (h1 : (46 :: d) <:+ nd) (h2 : (46 :: k) <:+ nd) :
    d = k ∨ (46 :: d) <:+ k ∨ (46 :: k) <:+ d := by
  rcases List.suffix_or_suffix_of_suffix h1 h2 with h | h
  · rcases cons46_suffix_cases d k h with h | h
    · exact Or.inl h
    · exact Or.inr (Or.inl h)
  · rcases cons46_suffix_cases k d h with h | h
    · exact Or.inl h.symm
    · exact Or.inr (Or.inr h)

/-- A key `d` that neither equals `k`, nor extends `k` across a dot, nor is
extended by `k` across a dot, can match a string of the form `A ++ "." ++ k`
neither exactly nor as a subdomain. -/
theorem no_hit_of_suffix_indep (nd d k A : List Nat)
    (hnd : nd = A ++ 46 :: k) (hdk : d ≠ k)
    (hs1 : ¬ (46 :: k) <:+ d) (hs2 : ¬ (46 :: d) <:+ k) :
    d ≠ nd ∧ subdomainMatchAt0 nd d = false := by
  constructor
  · intro hd
    exact hs1 ⟨A, by rw [← hnd, ← hd]⟩
  · by_contra hb
    rw [Bool.not_eq_false] at hb
    obtain ⟨A2, hA20, hA2lt, hnd2⟩ := (subdomainMatchAt0_iff nd d).mp hb
    have s1 : (46 :: d) <:+ nd := ⟨A2, hnd2.symm⟩
    have s2 : (46 :: k) <:+ nd := ⟨A, hnd.symm⟩
    rcases suffix_trichotomy46 d k nd s1 s2 with h | h | h
    · exact hdk h
    · exact hs2 h
    · exact hs1 h

/-- Lowering turns a code unit into a line terminator or out of one never:
the ASCII uppercase range and its image contain no line terminator. -/
theorem isLineTerminator_jsToLower (n : Nat) :
    isLineTerminator (jsToLower n) = isLineTerminator n := by
  unfold jsToLower
  split
  · next h =>
    have h1 : isLineTerminator (n + 32) = false := by
      apply decide_eq_false; omega
    have h2 : isLineTerminator n = false := by
      apply decide_eq_false; omega
    rw [h1, h2]
  · rfl

/-- Lowering preserves membership in the trim whitespace set. -/
theorem isJsWhitespace_jsToLower (n : Nat) :
    isJsWhitespace (jsToLower n) = isJsWhitespace n := by
  unfold jsToLower
  split
  · next h =>
    have h1 : isJsWhitespace (n + 32) = false := by
      apply decide_eq_false; omega
    have h2 : isJsWhitespace n = false := by
      apply decide_eq_false; omega
    rw [h1, h2]
  · rfl

/-- Uppercasing then lowering is the identity on code units that are already
lowercase (fixed by `jsToLower`). -/
theorem jsToLower_jsToUpper (n : Nat) (h : jsToLower n = n) :
    jsToLower (jsToUpper n) = n := by
  unfold jsToLower at h ⊢
  unfold jsToUpper
  by_cases h97 : 97 ≤ n ∧ n ≤ 122
  · rw [if_pos h97, if_pos (by omega)]
    omega
  · rw [if_neg h97]
    exact h

/-- Mapping a pointwise-identity function is the identity. -/
theorem list_map_fixed (f : Nat → Nat) (l : List Nat) (h : ∀ c ∈ l, f c = c) :
    l.map f = l := by
  induction l with
  | nil => rfl
  | cons c t ih =>
    rw [List.map_cons, h c (List.mem_cons_self c t),
      ih (fun x hx => h x (List.mem_cons_of_mem c hx))]

/-- Dropping a whitespace-only block continues into the rest. -/
theorem dropWhile_append_all (p : Nat → Bool) (l r : List Nat)
    (h : ∀ c ∈ l, p c = true) :
    (l ++ r).dropWhile p = r.dropWhile p := by
  induction l with
  | nil => rfl
  | cons c t ih =>
    rw [List.cons_append, List.dropWhile_cons,
      if_pos (h c (List.mem_cons_self c t))]
    exact ih (fun x hx => h x (List.mem_cons_of_mem c hx))

/-- `dropWhile` stops at a head that fails the predicate. -/
theorem dropWhile_cons_of_neg (p : Nat → Bool) (c : Nat) (t : List Nat)
    (h : p c = false) : (c :: t).dropWhile p = c :: t := by
  rw [List.dropWhile_cons, if_neg (by simp [h])]

/-- A list with some element failing the predicate does not drop away
entirely. -/
theorem dropWhile_ne_nil_of_exists (p : Nat → Bool) (l : List Nat)
    (h : ∃ c ∈ l, p c = false) : l.dropWhile p ≠ [] := by
  induction l with
  | nil =>
    rcases h with ⟨c, hc, _⟩
    cases hc
  | cons c t ih =>
    rw [List.dropWhile_cons]
    by_cases hc : p c = true
    · rw [if_pos hc]
      apply ih
      rcases h with ⟨d, hd, hdp⟩
      rcases List.mem_cons.mp hd with rfl | hd2
      · rw [hc] at hdp
        cases hdp
      · exact ⟨d, hd2, hdp⟩
    · rw [if_neg hc]
      simp

/-- The head surviving a `dropWhile` fails the predicate. -/
theorem dropWhile_head_false (p : Nat → Bool) (l : List Nat) :
    ∀ a t, l.dropWhile p = a :: t → p a = false := by
  induction l with
  | nil =>
    intro a t h
    cases h
  | cons c r ih =>
    intro a t h
    rw [List.dropWhile_cons] at h
    split at h
    · exact ih a t h
    · next hc =>
      injection h with h1 h2
      rw [← h1]
      exact Bool.eq_false_iff.mpr hc

/-- A whitespace-only string drops away entirely. -/
theorem dropWhile_eq_nil_of_all (p : Nat → Bool) (l : List Nat)
    (h : ∀ c ∈ l, p c = true) : l.dropWhile p = [] := by
  induction l with
  | nil => rfl
  | cons c t ih =>
    rw [List.dropWhile_cons, if_pos (h c (List.mem_cons_self c t))]
    exact ih (fun x hx => h x (List.mem_cons_of_mem c hx))

/-- Evaluation of `trim` on a string that is whitespace, then a block with
non-whitespace first and last code units, then whitespace. -/
theorem jsTrim_wrap (W1 W2 M : List Nat)
    (h1 : ∀ c ∈ W1, isJsWhitespace c = true)
    (h2 : ∀ c ∈ W2, isJsWhitespace c = true)
    (hhead : ∀ a t, M = a :: t → isJsWhitespace a = false)
    (hlast : ∀ a t, M.reverse = a :: t → isJsWhitespace a = false) :
    jsTrim (W1 ++ M ++ W2) = M := by
  cases M with
  | nil =>
    unfold jsTrim
    have hnil : (W1 ++ [] ++ W2).dropWhile isJsWhitespace = [] := by
      rw [List.append_nil, dropWhile_append_all _ _ _ h1]
      exact dropWhile_eq_nil_of_all _ _ h2
    rw [hnil]
    simp
  | cons a t =>
    unfold jsTrim
    have hleft : (W1 ++ (a :: t) ++ W2).dropWhile isJsWhitespace =
        (a :: t) ++ W2 := by
      rw [List.append_assoc, dropWhile_append_all _ _ _ h1, List.cons_append,
        dropWhile_cons_of_neg _ _ _ (hhead a t rfl)]
    rw [hleft]
    cases hMr : (a :: t).reverse with
    | nil => simp at hMr
    | cons b u =>
      have hright : ((a :: t) ++ W2).reverse.dropWhile isJsWhitespace =
          (a :: t).reverse := by
        rw [List.reverse_append, dropWhile_append_all _ _ _
          (fun c hc => h2 c (List.mem_reverse.mp hc)), hMr,
          dropWhile_cons_of_neg _ _ _ (hlast b u hMr)]
      rw [hright, List.reverse_reverse]

/-- `trim` is the identity on whitespace-free strings. -/
theorem jsTrim_eq_self (k : List Nat)
    (hkws : ∀ c ∈ k, isJsWhitespace c = false) : jsTrim k = k := by
  have h := jsTrim_wrap [] [] k (by simp) (by simp)
    (fun a t ht => hkws a (ht ▸ List.mem_cons_self a t))
    (fun a t ht => hkws a (List.mem_reverse.mp (ht ▸ List.mem_cons_self a t)))
  simpa using h

/-- `trim` removes exactly the two-space padding around a whitespace-free
string. -/
theorem jsTrim_pad_spaces (k : List Nat)
    (hkws : ∀ c ∈ k, isJsWhitespace c = false) :
    jsTrim ([32, 32] ++ k ++ [32, 32]) = k :=
  jsTrim_wrap [32, 32] [32, 32] k (by decide) (by decide)
    (fun a t ht => hkws a (ht ▸ List.mem_cons_self a t))
    (fun a t ht => hkws a (List.mem_reverse.mp (ht ▸ List.mem_cons_self a t)))

/-- Normalization of `L ++ "." ++ k` for a lowercase whitespace-free key:
lowering passes through, and trimming strips exactly the leading whitespace
of the lowered label. -/
theorem normalizeDomain_label_dot_key (L k : List Nat) (hk : k ≠ [])
    (hkws : ∀ c ∈ k, isJsWhitespace c = false)
    (hklow : ∀ c ∈ k, jsToLower c = c) :
    normalizeDomain (L ++ 46 :: k) =
      ((L.map jsToLower).dropWhile isJsWhitespace) ++ 46 :: k := by
  have hmap : (L ++ 46 :: k).map jsToLower = (L.map jsToLower) ++ 46 :: k := by
    rw [List.map_append, List.map_cons, list_map_fixed jsToLower k hklow]
    rfl
  unfold normalizeDomain
  rw [hmap]
  set M : List Nat := ((L.map jsToLower).dropWhile isJsWhitespace) ++ 46 :: k
    with hM
  have hsplit : (L.map jsToLower) ++ 46 :: k =
      ((L.map jsToLower).takeWhile isJsWhitespace) ++ M ++ [] := by
    rw [hM, List.append_nil, ← List.append_assoc,
      List.takeWhile_append_dropWhile]
  rw [hsplit]
  apply jsTrim_wrap
  · intro c hc
    exact List.mem_takeWhile_imp hc
  · intro c hc
    cases hc
  · intro a t ht
    rw [hM] at ht
    cases hdw : (L.map jsToLower).dropWhile isJsWhitespace with
    | nil =>
      rw [hdw, List.nil_append] at ht
      injection ht with h1 h2
      rw [← h1]
      decide
    | cons b u =>
      rw [hdw, List.cons_append] at ht
      injection ht with h1 h2
      rw [← h1]
      exact dropWhile_head_false isJsWhitespace (L.map jsToLower) b u hdw
  · intro a t ht
    cases hkr : k.reverse with
    | nil =>
      rw [List.reverse_eq_nil_iff] at hkr
      exact absurd hkr hk
    | cons b u =>
      have hMr : M.reverse = b :: (u ++ 46 ::
          ((L.map jsToLower).dropWhile isJsWhitespace).reverse) := by
        rw [hM, List.reverse_append, List.reverse_cons, hkr]
        simp
      rw [hMr] at ht
      injection ht with h1 h2
      rw [← h1]
      exact hkws b (List.mem_reverse.mp (hkr ▸ List.mem_cons_self b u))

/-- Membership survives `dropWhile`. -/
theorem mem_of_mem_dropWhile (p : Nat → Bool) (l : List Nat) (c : Nat)
    (h : c ∈ l.dropWhile p) : c ∈ l := by
  induction l with
  | nil => simp at h
  | cons a t ih =>
    rw [List.dropWhile_cons] at h
    split at h
    · exact List.mem_cons_of_mem a (ih h)
    · exact h

/-- A string without `"@"` fails the `search(/@/) > 0` guard. -/
theorem search_guard_no_at (s : List Nat) (h : 64 ∉ s) :
    ¬ (s ≠ [] ∧ 0 < searchAt s) := by
  rintro ⟨h1, h2⟩
  have hidx : searchAt s = -1 := by
    rw [searchAt, indexOfAt_eq_none s h]
  rw [hidx] at h2
  omega

/-- A string starting with `"@"` fails the `search(/@/) > 0` guard. -/
theorem search_guard_head_at (s : List Nat) :
    ¬ ((64 :: s) ≠ [] ∧ 0 < searchAt (64 :: s)) := by
  rintro ⟨h1, h2⟩
  have h0 : searchAt (64 :: s) = 0 := rfl
  rw [h0] at h2
  omega

/-- C2 counterexample: the claim quantifies over every local part without
`"@"`, and the empty local part falsifies it.  With localpart = "" and
domain = "tempmail.com" the address is "@tempmail.com"; `isFakeEmail`
returns `false` on it (the `search(/@/) > 0` guard rejects a leading `"@"`),
while `isFakeDomain("tempmail.com")` returns "tempmail.com". -/
theorem C2_counterexample :
    (64 ∉ ([] : List Nat)) ∧
    codepoints "@tempmail.com" = [] ++ 64 :: codepoints "tempmail.com" ∧
    isFakeEmail (.str (codepoints "@tempmail.com")) mockDomains = .noMatch ∧
    isFakeDomain (.str (codepoints "tempmail.com")) mockDomains =
      .found (codepoints "tempmail.com") := by decide

/-- C2 (corrected): for every config, every non-empty local part without
`"@"` and every domain string without `"@"`,
`isFakeEmail(localpart ++ "@" ++ domain, config)` equals
`isFakeDomain(domain, config)`. -/
theorem C2_theorem (cfg : DomainConfig) (lp dom : List Nat)
    (h0 : lp ≠ []) (h1 : 64 ∉ lp) (h2 : 64 ∉ dom) :
    isFakeEmail (.str (lp ++ 64 :: dom)) cfg = isFakeDomain (.str dom) cfg := by
  unfold isFakeEmail
  rw [hostname_single_at lp dom h0 h1 h2]

/-- C2 witness: the amended claim applied at "user" @ "tempmail.com" under
the test-suite config. -/
theorem C2_witness :
    isFakeEmail (.str (codepoints "user" ++ 64 :: codepoints "tempmail.com"))
      mockDomains =
    isFakeDomain (.str (codepoints "tempmail.com")) mockDomains :=
  C2_theorem mockDomains (codepoints "user") (codepoints "tempmail.com")
    (by decide) (by decide) (by decide)

/-- C4 counterexample: on "user@name@tempmail.com" the candidate domain the
source delegates is "name" — the segment of `split(/@/)` at index 1, the text
strictly between the first and the second `"@"` — not the claimed
"name@tempmail.com" (everything after the first `"@"`). -/
theorem C4_counterexample :
    hostnameFromEmailAddress (.str (codepoints "user@name@tempmail.com")) =
      .str (codepoints "name") ∧
    codepoints "name" ≠ codepoints "name@tempmail.com" := by decide

/-- C4 (corrected): when the input has a non-empty `"@"`-free prefix before
its first `"@"` and a second `"@"` later, the candidate domain delegated to
`isFakeDomain` is the text strictly between the first and the second `"@"`;
in particular "user@name@tempmail.com" yields candidate domain "name". -/
theorem C4_theorem (a b c : List Nat) (ha0 : a ≠ []) (ha : 64 ∉ a)
    (hb : 64 ∉ b) :
    hostnameFromEmailAddress (.str (a ++ 64 :: (b ++ 64 :: c))) = .str b :=
  hostname_two_ats a b c ha0 ha hb

/-- C4 witness: the amended claim applied at "user@name@tempmail.com". -/
theorem C4_witness :
    hostnameFromEmailAddress (.str (codepoints "user" ++ 64 ::
      (codepoints "name" ++ 64 :: codepoints "tempmail.com"))) =
      .str (codepoints "name") :=
  C4_theorem (codepoints "user") (codepoints "name")
    (codepoints "tempmail.com") (by decide) (by decide) (by decide)

/-- C6 (confirmed): for every string with a non-empty `"@"`-free part before
its first `"@"`, `isPlusAddressingEmail` returns exactly whether that local
part contains `"+"` (code 43) — no normalization, and a `"+"` at or after
the first `"@"` (inside `r`) plays no role. -/
theorem C6_theorem (l r : List Nat) (h0 : l ≠ []) (h1 : 64 ∉ l) :
    isPlusAddressingEmail (.str (l ++ 64 :: r)) = l.contains 43 := by
  have hs : splitOnAt (l ++ 64 :: r) = l :: splitOnAt r :=
    splitOnAt_append l r h1
  have hlen : 0 < l.length := List.length_pos.mpr h0
  simp only [isPlusAddressingEmail]
  rw [if_pos ⟨by simp, by rw [searchAt_append l r h1]; exact_mod_cast hlen⟩, hs]
  simp

/-- C6 witness: the claim applied at "user+tag" @ "example.com". -/
theorem C6_witness :
    isPlusAddressingEmail (.str (codepoints "user+tag" ++ 64 ::
      codepoints "example.com")) = (codepoints "user+tag").contains 43 :=
  C6_theorem (codepoints "user+tag") (codepoints "example.com")
    (by decide) (by decide)

/-- C7 (confirmed): on any value that is not a non-empty string, on any
string without `"@"`, and on any string starting with `"@"`, both
`isFakeEmail` (for every config) and `isPlusAddressingEmail` return
`false`. -/
theorem C7_theorem (v : JsValue) (cfg : DomainConfig)
    (h : (∀ s, v = .str s → s = []) ∨ (∃ s, v = .str s ∧ 64 ∉ s) ∨
      (∃ s, v = .str (64 :: s))) :
    isFakeEmail v cfg = .noMatch ∧ isPlusAddressingEmail v = false := by
  rcases h with h | ⟨s, rfl, hs⟩ | ⟨s, rfl⟩
  · cases v with
    | str s =>
      rw [h s rfl]
      exact ⟨rfl, rfl⟩
    | vnull => exact ⟨rfl, rfl⟩
    | vundefined => exact ⟨rfl, rfl⟩
    | num n => exact ⟨rfl, rfl⟩
    | boolean b => exact ⟨rfl, rfl⟩
    | object => exact ⟨rfl, rfl⟩
    | array => exact ⟨rfl, rfl⟩
  · constructor
    · unfold isFakeEmail
      simp only [hostnameFromEmailAddress]
      rw [if_neg (search_guard_no_at s hs)]
      rfl
    · simp only [isPlusAddressingEmail]
      rw [if_neg (search_guard_no_at s hs)]
  · constructor
    · unfold isFakeEmail
      simp only [hostnameFromEmailAddress]
      rw [if_neg (search_guard_head_at s)]
      rfl
    · simp only [isPlusAddressingEmail]
      rw [if_neg (search_guard_head_at s)]

/-- C7 witness: the claim applied at the non-string input 42 under the
test-suite config. -/
theorem C7_witness :
    isFakeEmail (.num 42) mockDomains = .noMatch ∧
    isPlusAddressingEmail (.num 42) = false :=
  C7_theorem (.num 42) mockDomains (Or.inl (fun _ hs => nomatch hs))

/-- C9 (confirmed): on a string with a non-empty `"@"`-free prefix before the
first `"@"` and at least two `"@"` characters, `isFakeEmail` equals
`isFakeDomain` applied to the text strictly between the first and the second
`"@"` — a candidate that by construction contains no `"@"`. -/
theorem C9_theorem (cfg : DomainConfig) (a b c : List Nat)
    (ha0 : a ≠ []) (ha : 64 ∉ a) (hb : 64 ∉ b) :
    isFakeEmail (.str (a ++ 64 :: (b ++ 64 :: c))) cfg =
      isFakeDomain (.str b) cfg := by
  unfold isFakeEmail
  rw [hostname_two_ats a b c ha0 ha hb]

/-- C9 witness: the claim applied at "user@name@tempmail.com" under the
test-suite config. -/
theorem C9_witness :
    isFakeEmail (.str (codepoints "user" ++ 64 ::
      (codepoints "name" ++ 64 :: codepoints "tempmail.com"))) mockDomains =
    isFakeDomain (.str (codepoints "name")) mockDomains :=
  C9_theorem mockDomains (codepoints "user") (codepoints "name")
    (codepoints "tempmail.com") (by decide) (by decide) (by decide)

/-- C1 counterexample: the input "a\nx.b.com" ends with ".b.com" with the
non-empty text "a\nx" before the suffix, so the claim demands the key
"b.com"; but the regular expression's `.+` cannot cross the newline, the
only match of `.+\.b\.com$` starts at index 2, not 0, and the source
returns `false`. -/
theorem C1_counterexample :
    normalizeDomain (codepoints "a\nx.b.com") =
      codepoints "a\nx" ++ 46 :: codepoints "b.com" ∧
    codepoints "a\nx" ≠ [] ∧
    isFakeDomain (.str (codepoints "a\nx.b.com")) ⟨[codepoints "b.com"]⟩ ≠
      .found (codepoints "b.com") := by decide

/-- C1 (corrected): for every string input and every config holding the
single non-empty metacharacter-free key `k`, `isFakeDomain` returns `k` if
and only if the lowercased-then-trimmed input equals `k`, or ends with
`"." ++ k` with at least one character before that suffix, none of which is
a line terminator; in every other case it returns `false`. -/
theorem C1_theorem (k inp : List Nat) (_hsafe : regexSafeKey k = true)
    (hk : k ≠ []) :
    (isFakeDomain (.str inp) ⟨[k]⟩ = .found k ∨
      isFakeDomain (.str inp) ⟨[k]⟩ = .noMatch) ∧
    (isFakeDomain (.str inp) ⟨[k]⟩ = .found k ↔
      normalizeDomain inp = k ∨
      ∃ A, A ≠ [] ∧ (∀ c ∈ A, isLineTerminator c = false) ∧
        normalizeDomain inp = A ++ 46 :: k) := by
  by_cases hinp : inp = []
  · subst hinp
    have hres : isFakeDomain (.str []) ⟨[k]⟩ = .noMatch := rfl
    have hnd : normalizeDomain [] = [] := rfl
    refine ⟨Or.inr hres, ?_⟩
    rw [hres, hnd]
    constructor
    · intro h
      cases h
    · rintro (h | ⟨A, hA0, _, hA⟩)
      · exact absurd h.symm hk
      · cases A with
        | nil => cases hA
        | cons a t => cases hA
  · have hres : isFakeDomain (.str inp) ⟨[k]⟩ =
        findFakeDomain (normalizeDomain inp) [k] := by
      simp only [isFakeDomain]
      rw [if_neg hinp]
    rw [hres, findFakeDomain_single]
    by_cases hcond : k = normalizeDomain inp ∨
        subdomainMatchAt0 (normalizeDomain inp) k = true
    · rw [if_pos hcond]
      refine ⟨Or.inl rfl, ?_⟩
      constructor
      · intro _
        rcases hcond with h | h
        · exact Or.inl h.symm
        · exact Or.inr ((subdomainMatchAt0_iff _ _).mp h)
      · intro _
        rfl
    · rw [if_neg hcond]
      refine ⟨Or.inr rfl, ?_⟩
      constructor
      · intro h
        cases h
      · rintro (h | h)
        · exact absurd (Or.inl h.symm) hcond
        · exact absurd (Or.inr ((subdomainMatchAt0_iff _ _).mpr h)) hcond

/-- C1 witness: the amended claim applied at input "x.b.com" with single key
"b.com". -/
theorem C1_witness :
    (isFakeDomain (.str (codepoints "x.b.com")) ⟨[codepoints "b.com"]⟩ =
        .found (codepoints "b.com") ∨
      isFakeDomain (.str (codepoints "x.b.com")) ⟨[codepoints "b.com"]⟩ =
        .noMatch) ∧
    (isFakeDomain (.str (codepoints "x.b.com")) ⟨[codepoints "b.com"]⟩ =
        .found (codepoints "b.com") ↔
      normalizeDomain (codepoints "x.b.com") = codepoints "b.com" ∨
      ∃ A, A ≠ [] ∧ (∀ c ∈ A, isLineTerminator c = false) ∧
        normalizeDomain (codepoints "x.b.com") =
          A ++ 46 :: codepoints "b.com") :=
  C1_theorem (codepoints "b.com") (codepoints "x.b.com") (by decide)
    (by decide)

/-- C8 (confirmed): for every input value of any type and every config whose
keys are free of unescaped regex metacharacters (so that the source's
`new RegExp` construction succeeds on every key), the total functions
`isFakeDomain` and `isFakeEmail` return `false` or one of the configured
keys, and `isPlusAddressingEmail` returns a boolean; no invalid input
reaches an exception. -/
theorem C8_theorem (v : JsValue) (cfg : DomainConfig)
    (_hkeys : ∀ d ∈ cfg.domains, regexSafeKey d = true) :
    (isFakeDomain v cfg = .noMatch ∨
      ∃ d ∈ cfg.domains, isFakeDomain v cfg = .found d) ∧
    (isFakeEmail v cfg = .noMatch ∨
      ∃ d ∈ cfg.domains, isFakeEmail v cfg = .found d) ∧
    (isPlusAddressingEmail v = false ∨ isPlusAddressingEmail v = true) := by
  have hgen : ∀ w : JsValue, isFakeDomain w cfg = .noMatch ∨
      ∃ d ∈ cfg.domains, isFakeDomain w cfg = .found d := by
    intro w
    cases w with
    | str s =>
      by_cases hs : s = []
      · subst hs
        exact Or.inl rfl
      · simp only [isFakeDomain]
        rw [if_neg hs]
        exact findFakeDomain_cases (normalizeDomain s) cfg.domains
    | vnull => exact Or.inl rfl
    | vundefined => exact Or.inl rfl
    | num n => exact Or.inl rfl
    | boolean b => exact Or.inl rfl
    | object => exact Or.inl rfl
    | array => exact Or.inl rfl
  refine ⟨hgen v, hgen (hostnameFromEmailAddress v), ?_⟩
  cases hb : isPlusAddressingEmail v
  · exact Or.inl rfl
  · exact Or.inr rfl

/-- C8 witness: the claim applied at input "sub.tempmail.com" under the
test-suite config. -/
theorem C8_witness :
    (isFakeDomain (.str (codepoints "sub.tempmail.com")) mockDomains =
        .noMatch ∨
      ∃ d ∈ mockDomains.domains,
        isFakeDomain (.str (codepoints "sub.tempmail.com")) mockDomains =
          .found d) ∧
    (isFakeEmail (.str (codepoints "sub.tempmail.com")) mockDomains =
        .noMatch ∨
      ∃ d ∈ mockDomains.domains,
        isFakeEmail (.str (codepoints "sub.tempmail.com")) mockDomains =
          .found d) ∧
    (isPlusAddressingEmail (.str (codepoints "sub.tempmail.com")) = false ∨
      isPlusAddressingEmail (.str (codepoints "sub.tempmail.com")) = true) :=
  C8_theorem (.str (codepoints "sub.tempmail.com")) mockDomains (by decide)

/-- C3 counterexample: the label L = "a\nb" is non-empty and dot-free, yet
`isFakeDomain("a\nb.tempmail.com")` is `false`, not "tempmail.com": the
regular expression's `.+` cannot cross the newline, so no match starts at
index 0. -/
theorem C3_counterexample :
    codepoints "a\nb" ≠ [] ∧
    46 ∉ codepoints "a\nb" ∧
    codepoints "a\nb.tempmail.com" =
      codepoints "a\nb" ++ 46 :: codepoints "tempmail.com" ∧
    isFakeDomain (.str (codepoints "a\nb.tempmail.com"))
      ⟨[codepoints "tempmail.com"]⟩ = .noMatch := by decide

/-- C3 (corrected): for every config whose keys are non-empty, lowercase,
whitespace-free, metacharacter-free and dot-suffix-independent (no key
extends another across a dot), every key `k`, and every non-empty label `L`
without dots, without line terminators and with at least one non-whitespace
character, `isFakeDomain(L ++ "." ++ k, config)` returns `k`. -/
theorem C3_theorem (cfg : DomainConfig) (k L : List Nat)
    (hmem : k ∈ cfg.domains)
    (_hsafe : ∀ d ∈ cfg.domains, regexSafeKey d = true)
    (hk : k ≠ [])
    (hklow : ∀ c ∈ k, jsToLower c = c)
    (hkws : ∀ c ∈ k, isJsWhitespace c = false)
    (hindep : ∀ d ∈ cfg.domains, d ≠ k →
      ¬ (46 :: k) <:+ d ∧ ¬ (46 :: d) <:+ k)
    (_hL0 : L ≠ []) (_hLdot : 46 ∉ L)
    (hLlt : ∀ c ∈ L, isLineTerminator c = false)
    (hLw : ∃ c ∈ L, isJsWhitespace c = false) :
    isFakeDomain (.str (L ++ 46 :: k)) cfg = .found k := by
  have hs0 : L ++ 46 :: k ≠ [] := by
    cases L with
    | nil => intro h; cases h
    | cons a t => intro h; cases h
  have hnd := normalizeDomain_label_dot_key L k hk hkws hklow
  set L2 : List Nat := (L.map jsToLower).dropWhile isJsWhitespace with hL2
  have hL2ne : L2 ≠ [] := by
    apply dropWhile_ne_nil_of_exists
    rcases hLw with ⟨c, hc, hcw⟩
    refine ⟨jsToLower c, List.mem_map_of_mem jsToLower hc, ?_⟩
    rw [isJsWhitespace_jsToLower]
    exact hcw
  have hL2lt : ∀ c ∈ L2, isLineTerminator c = false := by
    intro c hc
    have hcL : c ∈ L.map jsToLower :=
      mem_of_mem_dropWhile isJsWhitespace (L.map jsToLower) c hc
    rcases List.mem_map.mp hcL with ⟨c0, hc0, rfl⟩
    rw [isLineTerminator_jsToLower]
    exact hLlt c0 hc0
  simp only [isFakeDomain]
  rw [if_neg hs0, hnd]
  apply findFakeDomain_eq_found _ k _ hmem
  · intro d hd hdk
    exact no_hit_of_suffix_indep _ d k L2 rfl hdk (hindep d hd hdk).1
      (hindep d hd hdk).2
  · exact Or.inr ((subdomainMatchAt0_iff _ _).mpr ⟨L2, hL2ne, hL2lt, rfl⟩)

/-- C3 witness: the amended claim applied at label "deep" and key
"tempmail.com" under the test-suite config. -/
theorem C3_witness :
    isFakeDomain (.str (codepoints "deep" ++ 46 :: codepoints "tempmail.com"))
      mockDomains = .found (codepoints "tempmail.com") :=
  C3_theorem mockDomains (codepoints "tempmail.com") (codepoints "deep")
    (by decide) (by decide) (by decide) (by decide) (by decide) (by decide)
    (by decide) (by decide) (by decide) (by decide)

/-- C5 counterexample: with the lowercase keys "b.com" and "a.b.com" in that
insertion order, `isFakeDomain("a.b.com")` returns the earlier overlapping
key "b.com" (a subdomain hit), not the exactly matching key "a.b.com" the
claim demands. -/
theorem C5_counterexample :
    codepoints "a.b.com" ∈
      (DomainConfig.mk [codepoints "b.com", codepoints "a.b.com"]).domains ∧
    isFakeDomain (.str (codepoints "a.b.com"))
      ⟨[codepoints "b.com", codepoints "a.b.com"]⟩ =
      .found (codepoints "b.com") ∧
    MatchResult.found (codepoints "b.com") ≠ .found (codepoints "a.b.com") := by
  decide

/-- C5 (corrected): for every config whose keys are non-empty, lowercase,
whitespace-free, metacharacter-free, and such that no key other than `k`
is extended by `k` across a dot, `isFakeDomain(k)` returns `k`, and so does
`isFakeDomain("  " ++ upper(k) ++ "  ")` (case-insensitive, trimmed). -/
theorem C5_theorem (cfg : DomainConfig) (k : List Nat)
    (hmem : k ∈ cfg.domains)
    (_hsafe : ∀ d ∈ cfg.domains, regexSafeKey d = true)
    (hk : k ≠ [])
    (hklow : ∀ c ∈ k, jsToLower c = c)
    (hkws : ∀ c ∈ k, isJsWhitespace c = false)
    (hindep : ∀ d ∈ cfg.domains, d ≠ k → ¬ (46 :: d) <:+ k) :
    isFakeDomain (.str k) cfg = .found k ∧
    isFakeDomain (.str ([32, 32] ++ k.map jsToUpper ++ [32, 32])) cfg =
      .found k := by
  have hself : findFakeDomain k cfg.domains = .found k := by
    apply findFakeDomain_eq_found _ k _ hmem _ (Or.inl rfl)
    intro d hd hdk
    refine ⟨hdk, ?_⟩
    by_contra hb
    rw [Bool.not_eq_false] at hb
    obtain ⟨A, _, _, hAnd⟩ := (subdomainMatchAt0_iff k d).mp hb
    exact hindep d hd hdk ⟨A, hAnd.symm⟩
  have hndk : normalizeDomain k = k := by
    unfold normalizeDomain
    rw [list_map_fixed jsToLower k hklow]
    exact jsTrim_eq_self k hkws
  constructor
  · simp only [isFakeDomain]
    rw [if_neg hk, hndk, hself]
  · have hs0 : ([32, 32] ++ k.map jsToUpper ++ [32, 32] : List Nat) ≠ [] := by
      simp
    simp only [isFakeDomain]
    rw [if_neg hs0]
    have hnd : normalizeDomain ([32, 32] ++ k.map jsToUpper ++ [32, 32]) =
        k := by
      unfold normalizeDomain
      have hmap : ([32, 32] ++ k.map jsToUpper ++ [32, 32]).map jsToLower =
          [32, 32] ++ k ++ [32, 32] := by
        rw [List.map_append, List.map_append, List.map_map,
          list_map_fixed (jsToLower ∘ jsToUpper) k
            (fun c hc => jsToLower_jsToUpper c (hklow c hc))]
        rfl
      rw [hmap]
      exact jsTrim_pad_spaces k hkws
    rw [hnd, hself]

/-- C5 witness: the amended claim applied at key "tempmail.com" under the
test-suite config, both bare and as "  TEMPMAIL.COM  ". -/
theorem C5_witness :
    isFakeDomain (.str (codepoints "tempmail.com")) mockDomains =
      .found (codepoints "tempmail.com") ∧
    isFakeDomain (.str ([32, 32] ++ (codepoints "tempmail.com").map jsToUpper
      ++ [32, 32])) mockDomains = .found (codepoints "tempmail.com") :=
  C5_theorem mockDomains (codepoints "tempmail.com") (by decide) (by decide)
    (by decide) (by decide) (by decide) (by decide)

/-- C10 (confirmed): over configs of domain-shaped keys (metacharacter-free
and line-terminator-free), an input whose normalized form equals no key,
ends with `"." ++ k` for a configured key `k`, and carries a newline before
that suffix, is rejected: the subdomain match must start at index 0 and its
`.+` cannot cross the newline, for this or any other key. -/
theorem C10_theorem (cfg : DomainConfig) (k inp A : List Nat)
    (hkeys : ∀ d ∈ cfg.domains, regexSafeKey d = true ∧
      ∀ c ∈ d, isLineTerminator c = false)
    (_hmem : k ∈ cfg.domains)
    (hnd : normalizeDomain inp = A ++ 46 :: k)
    (hA : 10 ∈ A)
    (hne : ∀ d ∈ cfg.domains, normalizeDomain inp ≠ d) :
    isFakeDomain (.str inp) cfg = .noMatch := by
  by_cases hinp : inp = []
  · subst hinp
    rfl
  · simp only [isFakeDomain]
    rw [if_neg hinp]
    apply findFakeDomain_eq_noMatch
    intro d hd
    refine ⟨(hne d hd).symm, ?_⟩
    by_contra hb
    rw [Bool.not_eq_false] at hb
    obtain ⟨A2, _, hA2lt, hnd2⟩ := (subdomainMatchAt0_iff _ _).mp hb
    have h10 : (10 : Nat) ∈ normalizeDomain inp := by
      rw [hnd]
      exact List.mem_append_left _ hA
    rw [hnd2] at h10
    rcases List.mem_append.mp h10 with h | h
    · exact absurd (hA2lt 10 h) (by decide)
    · rcases List.mem_cons.mp h with h | h
      · exact absurd h (by decide)
      · exact absurd ((hkeys d hd).2 10 h) (by decide)

/-- C10 witness: the claim applied at input "a\nb.tempmail.com" and key
"tempmail.com" under the test-suite config. -/
theorem C10_witness :
    isFakeDomain (.str (codepoints "a\nb.tempmail.com")) mockDomains =
      .noMatch :=
  C10_theorem mockDomains (codepoints "tempmail.com")
    (codepoints "a\nb.tempmail.com") (codepoints "a\nb") (by decide)
    (by decide) (by decide) (by decide) (by decide)
